import Mathlib

/-!
Verification of the FileMind Outlook MCP server against its specification.

The development shallowly embeds the two core components of the repository:

* `TokenService.get_token` / `TokenService._refresh_token`
  (src/auth/token_service.py): OAuth token lookup, decryption, proactive
  refresh, and persistence over the `oauth_connections` store.

* the Graph client helpers and tools (src/server.py): `graph_get`,
  `graph_get_paginated`, `list_emails`, `search_emails`.

Machine integers and timestamps are modelled as `Int` (seconds); the
database is a list of rows; the network and the cipher are explicit
functional parameters; the pagination `while` loop is fuel-indexed so that
both termination and non-termination are statable.
-/

namespace OutlookMCP

/-! ## Time model

A stored timestamp is a wall-clock value in seconds together with an
optional timezone offset.  `tzOffset = none` models a naive Python
`datetime` (no `tzinfo`); `get_token` normalizes such a value by
attaching UTC without changing the wall clock
(`expires_at.replace(tzinfo=timezone.utc)`), while an aware value denotes
the absolute instant `wall - offset`. -/

structure WallTime where
  wall : Int
  tzOffset : Option Int
deriving Repr, DecidableEq

/-- Absolute UTC seconds denoted by a stored timestamp, after the
normalization performed at the top of `get_token`. -/
def normalizeUTC (t : WallTime) : Int :=
  match t.tzOffset with
  | none => t.wall
  | some o => t.wall - o

/-! ## Credential store model (table `oauth_connections`) -/

structure OAuthRow where
  id : Nat
  user_id : String
  provider : String
  access_token : String
  refresh_token : String
  expires_at : WallTime
  provider_metadata : String
  is_active : Bool
  created_at : Int
  updated_at : Int
  last_used_at : Option Int
deriving Repr, DecidableEq

/-- The `PROVIDER` constant of token_service.py. -/
def PROVIDER : String := "microsoft"

/-- The rows matched by the `WHERE` clause of the `fetchrow` query:
`user_id = $1 AND provider = $2 AND is_active = TRUE`. -/
def activeRows (db : List OAuthRow) (uid : String) : List OAuthRow :=
  db.filter (fun r => r.user_id == uid && r.provider == PROVIDER && r.is_active)

/-- `ORDER BY created_at DESC LIMIT 1` over `activeRows`: the most recently
created matching row (first such row on ties). -/
def canonicalRow (db : List OAuthRow) (uid : String) : Option OAuthRow :=
  (activeRows db uid).foldl
    (fun best r =>
      match best with
      | none => some r
      | some b => if b.created_at < r.created_at then some r else some b)
    none

/-! ## Cipher, clock, provider response -/

/-- The Fernet cipher: encryption always succeeds, decryption of a
non-ciphertext fails. -/
structure Cipher where
  encrypt : String → String
  decrypt : String → Option String

/-- The distinct times observed during one `get_token` call:
`check` is `datetime.now(timezone.utc)` in `get_token`, `refresh` is
`datetime.now(timezone.utc)` inside `_refresh_token`, `lastUsed` is the
database-side `NOW()` of the `last_used_at` update. -/
structure Clock where
  check : Int
  refresh : Int
  lastUsed : Int
deriving Repr, DecidableEq

/-- The identity provider's reply to the single `refresh_token`-grant POST:
HTTP status plus the optional JSON fields read by `_refresh_token`. -/
structure RefreshResponse where
  status_code : Nat
  access_token : Option String
  refresh_token : Option String
  expires_in : Option Int
deriving Repr, DecidableEq

/-- Failure modes of `get_token` (`TokenServiceError` plus the `KeyError`
raised by `data["access_token"]` when the field is missing). -/
inductive TSErr where
  | notConnected
  | decryptionFailed
  | refreshFailed
  | missingAccessField
deriving Repr, DecidableEq

/-- The `MicrosoftToken` dataclass (expiry as absolute UTC seconds). -/
structure MicrosoftToken where
  access_token : String
  user_id : String
  expires_at : Int
deriving Repr, DecidableEq

/-- Result of one `get_token` call: the store after the call, the number of
provider token-endpoint requests issued, and the returned token or error. -/
structure GetTokenOut where
  db : List OAuthRow
  refreshCalls : Nat
  out : Except TSErr MicrosoftToken
deriving Repr

/-- The `UPDATE oauth_connections SET access_token = $1, refresh_token = $2,
expires_at = $3, updated_at = NOW() WHERE id = $4` performed by
`_refresh_token`. -/
def refreshUpdate (db : List OAuthRow) (connId : Nat)
    (encA encR : String) (newExp : Int) (rnow : Int) : List OAuthRow :=
  db.map (fun r =>
    if r.id == connId then
      { r with access_token := encA, refresh_token := encR,
               expires_at := ⟨newExp, some 0⟩, updated_at := rnow }
    else r)

/-- The `UPDATE oauth_connections SET last_used_at = NOW() WHERE id = $1`
performed unconditionally at the end of `get_token`. -/
def touchLastUsed (db : List OAuthRow) (connId : Nat) (lnow : Int) : List OAuthRow :=
  db.map (fun r => if r.id == connId then { r with last_used_at := some lnow } else r)

/-- `TokenService._refresh_token`: returns the new plaintext access token and
the updated store, or the error. The provider request itself has already
been counted by the caller. -/
def refresh_token_step (cipher : Cipher) (resp : RefreshResponse)
    (refreshTok : String) (connId : Nat) (db : List OAuthRow) (rnow : Int) :
    Except TSErr (String × List OAuthRow) :=
  if resp.status_code ≠ 200 then
    .error .refreshFailed
  else
    match resp.access_token with
    | none => .error .missingAccessField
    | some newAccess =>
      let newRefresh := resp.refresh_token.getD refreshTok
      let expires_in := resp.expires_in.getD 3600
      let encA := cipher.encrypt newAccess
      let encR := cipher.encrypt newRefresh
      let newExp := rnow + expires_in
      .ok (newAccess, refreshUpdate db connId encA encR newExp rnow)

/-- `TokenService.get_token`, executed under the per-user lock: fetch the
canonical active row, decrypt both tokens, normalize the expiry, refresh
when fewer than 300 seconds remain, update `last_used_at`, and return the
token together with the (old, normalized) expiry. -/
def get_token (cipher : Cipher) (clock : Clock) (resp : RefreshResponse)
    (db : List OAuthRow) (uid : String) : GetTokenOut :=
  match canonicalRow db uid with
  | none => ⟨db, 0, .error .notConnected⟩
  | some row =>
    match cipher.decrypt row.access_token, cipher.decrypt row.refresh_token with
    | some access, some refreshTok =>
      let expAbs := normalizeUTC row.expires_at
      if expAbs - clock.check < 300 then
        match refresh_token_step cipher resp refreshTok row.id db clock.refresh with
        | .error e => ⟨db, 1, .error e⟩
        | .ok (newAccess, db1) =>
          ⟨touchLastUsed db1 row.id clock.lastUsed, 1,
           .ok ⟨newAccess, uid, expAbs⟩⟩
      else
        ⟨touchLastUsed db row.id clock.lastUsed, 0, .ok ⟨access, uid, expAbs⟩⟩
    | _, _ => ⟨db, 0, .error .decryptionFailed⟩

/-! ## Graph client (src/server.py)

Responses carry items of an abstract type `α`; the network is a pure
function from requests to HTTP responses. -/

/-- Parsed response envelope: the `value` collection (absent modelled as
`[]`, matching `response.get ("value", [])`) and the optional
`@odata.nextLink` continuation reference. -/
structure GraphBody (α : Type) where
  value : List α
  nextLink : Option String
deriving Repr, DecidableEq

structure HttpResponse (α : Type) where
  status_code : Nat
  body : GraphBody α
deriving Repr, DecidableEq

/-- The request `httpx` is given: the final URL, and the query parameters
(`none` models `params=None`). -/
structure GraphRequest where
  url : String
  params : Option (List (String × String))
deriving Repr, DecidableEq

/-- Failures raised by `graph_get` as `ToolError`s. -/
inductive GraphErr where
  | authMissing
  | reauthNeeded
  | upstreamError (status : Nat)
deriving Repr, DecidableEq

def GRAPH_BASE_URL : String := "https://graph.microsoft.com/v1.0"

/-- Python's `s.startswith (pre)`, over the character representation. -/
def pyStartsWith (s pre : String) : Bool := pre.data.isPrefixOf s.data

/-- URL and parameter construction of `graph_get`:
`url = endpoint if endpoint.startswith ("http") else BASE/endpoint`,
`params = params if not endpoint.startswith ("http") else None`. -/
def buildRequest (endpoint : String) (params : List (String × String)) : GraphRequest :=
  { url := if pyStartsWith endpoint "http" then endpoint
           else GRAPH_BASE_URL ++ "/" ++ endpoint,
    params := if pyStartsWith endpoint "http" then none else some params }

/-- `ctx.get_state ("microsoft_token")` is falsy: unset, or the empty
string. -/
def tokenMissing (token : Option String) : Bool :=
  token.getD "" == ""

/-- `graph_get`: bearer check, one request, status mapping
(401 first, then any status ≥ 400, else the parsed body). -/
def graph_get (net : GraphRequest → HttpResponse α) (token : Option String)
    (endpoint : String) (params : List (String × String)) :
    Except GraphErr (GraphBody α) :=
  if tokenMissing token then .error .authMissing
  else
    let resp := net (buildRequest endpoint params)
    if resp.status_code == 401 then .error .reauthNeeded
    else if 400 ≤ resp.status_code then .error (.upstreamError resp.status_code)
    else .ok resp.body

/-- One issued request of the pagination loop, as observed from outside:
the endpoint and parameters handed to `graph_get`, the number of items
accumulated when the request was issued, and the outcome. -/
structure TraceEntry (α : Type) where
  endpoint : String
  params : List (String × String)
  accBefore : Nat
  page : Except GraphErr (GraphBody α)

/-- The `while len (all_items) < max_count` loop of `graph_get_paginated`,
indexed by fuel (`none` = the loop has not terminated within `fuel`
iterations).  Returns the issued-request trace and the accumulated items
before the final `[:max_count]` truncation. -/
def pagAux (net : GraphRequest → HttpResponse α) (token : Option String)
    (maxCount : Nat) :
    Nat → String → List (String × String) → List α →
    Option (List (TraceEntry α) × Except GraphErr (List α))
  | 0, _, _, _ => none
  | fuel + 1, ep, ps, acc =>
    if maxCount ≤ acc.length then some ([], .ok acc)
    else
      let page := graph_get net token ep ps
      let entry : TraceEntry α := ⟨ep, ps, acc.length, page⟩
      match page with
      | .error e => some ([entry], .error e)
      | .ok body =>
        let acc' := acc ++ body.value
        match body.nextLink with
        | none => some ([entry], .ok acc')
        | some link =>
          if maxCount ≤ acc'.length then some ([entry], .ok acc')
          else
            match pagAux net token maxCount fuel link [] acc' with
            | none => none
            | some (tr, r) => some (entry :: tr, r)

/-- `graph_get_paginated`: run the loop from an empty accumulator and
return `all_items[:max_count]` on success. -/
def graph_get_paginated (net : GraphRequest → HttpResponse α)
    (token : Option String) (endpoint : String) (maxCount : Nat)
    (params : List (String × String)) (fuel : Nat) :
    Option (List (TraceEntry α) × Except GraphErr (List α)) :=
  match pagAux net token maxCount fuel endpoint params [] with
  | none => none
  | some (tr, r) => some (tr, r.map (fun items => items.take maxCount))

/-- The stop conditions of the pagination loop, checked along the chain of
continuation references: within `n` iterations the loop reaches an
accumulated count ≥ `max_count`, a failing call, or a page with no
continuation reference. -/
def stopsWithin (net : GraphRequest → HttpResponse α) (token : Option String)
    (maxCount : Nat) : Nat → String → List (String × String) → Nat → Bool
  | 0, _, _, _ => false
  | n + 1, ep, ps, acc =>
    if maxCount ≤ acc then true
    else
      match graph_get net token ep ps with
      | .error _ => true
      | .ok body =>
        match body.nextLink with
        | none => true
        | some link =>
          if maxCount ≤ acc + body.value.length then true
          else stopsWithin net token maxCount n link [] (acc + body.value.length)

/-- Concatenation of the item collections of the successful pages of a
trace. -/
def traceValues : List (TraceEntry α) → List α
  | [] => []
  | e :: tr =>
    (match e.page with
     | .ok body => body.value
     | .error _ => []) ++ traceValues tr

/-! ## Email tools (src/server.py) -/

/-- `settings.email_list_fields` (config.py). -/
def email_list_fields : String :=
  "id,subject,from,toRecipients,ccRecipients,receivedDateTime,bodyPreview,hasAttachments,importance,isRead"

/-- `count = min (50, max (1, count))` in `list_emails` / `search_emails`. -/
def clampCount (c : Int) : Int := min 50 (max 1 c)

/-- Python truthiness of an `Optional[str]` argument. -/
def truthy (o : Option String) : Bool := !(o.getD "" == "")

/-- The parameter dict built by `list_emails`. -/
def listParams (count : Int) : List (String × String) :=
  [("$top", toString (min 50 count)),
   ("$orderby", "receivedDateTime desc"),
   ("$select", email_list_fields)]

/-- `list_emails` after folder resolution: clamp the count and issue one
capped paginated fetch. -/
def list_emails (net : GraphRequest → HttpResponse α) (token : Option String)
    (endpoint : String) (count0 : Int) (fuel : Nat) :
    Option (List (TraceEntry α) × Except GraphErr (List α)) :=
  let count := clampCount count0
  graph_get_paginated net token endpoint count.toNat (listParams count) fuel

/-- `f'"{s}"'`. -/
def quoted (s : String) : String := "\"" ++ s ++ "\""

/-- The KQL `$search` terms of the combined tier, in source order:
query, subject, from. -/
def searchTerms (query subject from_address : Option String) : List String :=
  (if truthy query then [quoted (query.getD "")] else []) ++
  (if truthy subject then ["subject:" ++ quoted (subject.getD "")] else []) ++
  (if truthy from_address then ["from:" ++ quoted (from_address.getD "")] else [])

/-- The `$filter` conjuncts for the boolean conditions (`is True` checks). -/
def boolFilters (has_attachments unread_only : Option Bool) : List String :=
  (if has_attachments == some true then ["hasAttachments eq true"] else []) ++
  (if unread_only == some true then ["isRead eq false"] else [])

/-- The base parameter dict shared by every search tier. -/
def searchBaseParams (count : Int) : List (String × String) :=
  [("$top", toString count),
   ("$orderby", "receivedDateTime desc"),
   ("$select", email_list_fields)]

/-- The full parameter dict of the combined tier. -/
def combinedParams (query subject from_address : Option String)
    (has_attachments unread_only : Option Bool) (count : Int) :
    List (String × String) :=
  searchBaseParams count ++
  (match searchTerms query subject from_address with
   | [] => []
   | ts => [("$search", String.intercalate " " ts)]) ++
  (match boolFilters has_attachments unread_only with
   | [] => []
   | fs => [("$filter", String.intercalate " and " fs)])

/-- The parameter dict of one individual-term fallback attempt. -/
def individualParams (count : Int) (termName termValue : String) :
    List (String × String) :=
  searchBaseParams count ++
  [("$search", if termName ≠ "query" then termName ++ ":" ++ quoted termValue
               else quoted termValue)]

/-- The individual-term fallback loop: skip non-truthy terms, swallow
failures and empty results, stop at the first non-empty success. -/
def tryIndividual (fetch : List (String × String) → Except GraphErr (List α))
    (count : Int) : List (String × Option String) → Option (List α × String)
  | [] => none
  | (name, val) :: rest =>
    if truthy val then
      match fetch (individualParams count name (val.getD "")) with
      | .ok es => if es.isEmpty then tryIndividual fetch count rest
                  else some (es, name ++ " search")
      | .error _ => tryIndividual fetch count rest
    else tryIndividual fetch count rest

/-- `search_emails` after folder resolution, over an abstract capped
paginated fetch (`graph_get_paginated` with the folder endpoint and the
clamped count fixed): combined tier, individual fallback in order
subject / from / query, then the unconditional recent-emails fallback
whose failure propagates. -/
def search_emails (fetch : List (String × String) → Except GraphErr (List α))
    (query subject from_address : Option String)
    (has_attachments unread_only : Option Bool) (count0 : Int) :
    Except GraphErr (List α × String) :=
  let count := clampCount count0
  let combined :=
    match fetch (combinedParams query subject from_address
                  has_attachments unread_only count) with
    | .ok es => if es.isEmpty then none else some (es, "combined search")
    | .error _ => none
  match combined with
  | some r => .ok r
  | none =>
    match tryIndividual fetch count
        [("subject", subject), ("from", from_address), ("query", query)] with
    | some r => .ok r
    | none =>
      match fetch (searchBaseParams count) with
      | .error e => .error e
      | .ok es => .ok (es, "recent emails fallback")

/-- Did a search attempt fail or come back empty (the two fall-through
conditions of the tiers)? -/
def attemptFailedOrEmpty (r : Except GraphErr (List α)) : Bool :=
  match r with
  | .ok es => es.isEmpty
  | .error _ => true

/-! ## Concrete instances used to evaluate the model -/

/-- A concrete authenticated cipher: prepend a marker character; decryption
fails on any string that does not carry it. -/
def testCipher : Cipher :=
  { encrypt := fun s => String.mk ('E' :: s.data),
    decrypt := fun s =>
      match s.data with
      | 'E' :: rest => some (String.mk rest)
      | _ => none }

/-- A canonical active credential row with the given stored expiry; the
stored ciphertexts decrypt (under `testCipher`) to "oldA" / "oldR". -/
def mkRow (e : WallTime) : OAuthRow :=
  { id := 1, user_id := "u", provider := "microsoft",
    access_token := "EoldA", refresh_token := "EoldR",
    expires_at := e, provider_metadata := "",
    is_active := true, created_at := 0, updated_at := 0, last_used_at := none }

/-- A successful provider refresh response with no `refresh_token` and no
`expires_in` field. -/
def okResp : RefreshResponse :=
  { status_code := 200, access_token := some "NEWA",
    refresh_token := none, expires_in := none }

/-- A clock: expiry check and refresh at time 0, `last_used_at` written at
time 7. -/
def wClock : Clock := { check := 0, refresh := 0, lastUsed := 7 }

/-- A mailbox source on which every request succeeds with the ten items
0..9 and a continuation link. -/
def pagesNet : GraphRequest → HttpResponse Nat :=
  fun _ => ⟨200, ⟨[0, 1, 2, 3, 4, 5, 6, 7, 8, 9], some "http://next"⟩⟩

/-- A mailbox source on which every request succeeds with an empty item
collection and a continuation link. -/
def emptyPagesNet : GraphRequest → HttpResponse Nat :=
  fun _ => ⟨200, ⟨([] : List Nat), some "http://next"⟩⟩

/-- A source returning the same response to every request. -/
def constNet (resp : HttpResponse Nat) : GraphRequest → HttpResponse Nat :=
  fun _ => resp

/-- A search fetch that returns no results whenever the `isRead` filter is
applied (as in the combined tier when `unread_only` is set) and the single
item 7 otherwise. -/
def fetchW : List (String × String) → Except GraphErr (List Nat) :=
  fun p => if p.contains ("$filter", "isRead eq false") then .ok [] else .ok [7]

/-! ## Helper lemmas -/

lemma listMapRel {β : Type} {P : β → β → Prop} (f : β → β) :
    ∀ l : List β, (∀ x ∈ l, P x (f x)) → List.Forall₂ P l (l.map f)
  | [], _ => List.Forall₂.nil
  | x :: xs, h =>
    List.Forall₂.cons (h x (by simp))
      (listMapRel f xs (fun y hy => h y (by simp [hy])))

/-- Inversion of a successful `_refresh_token` run: the provider replied
200 with an `access_token`, and the store received exactly the
re-encrypted pair, the new expiry and the update timestamp. -/
lemma refresh_step_ok {cipher : Cipher} {resp : RefreshResponse}
    {rt : String} {connId : Nat} {db : List OAuthRow} {rnow : Int}
    {a : String} {db1 : List OAuthRow}
    (h : refresh_token_step cipher resp rt connId db rnow = .ok (a, db1)) :
    resp.status_code = 200 ∧ resp.access_token = some a ∧
      db1 = refreshUpdate db connId (cipher.encrypt a)
              (cipher.encrypt (resp.refresh_token.getD rt))
              (rnow + resp.expires_in.getD 3600) rnow := by
  unfold refresh_token_step at h
  by_cases hst : resp.status_code = 200
  · simp only [hst] at h
    cases hacc : resp.access_token with
    | none => rw [hacc] at h; simp at h
    | some newA =>
      rw [hacc] at h
      simp at h
      obtain ⟨h1, h2⟩ := h
      subst h1
      exact ⟨hst, rfl, h2.symm⟩
  · simp [hst] at h

/-- C2: `get_token` executes the refresh protocol if and only if the
stored expiry, normalized to UTC, is strictly less than 300 seconds away
from the current time. -/
theorem get_token_refresh_window (cipher : Cipher) (clock : Clock)
    (resp : RefreshResponse) (db : List OAuthRow) (uid : String)
    (row : OAuthRow) (a rt : String)
    (hrow : canonicalRow db uid = some row)
    (ha : cipher.decrypt row.access_token = some a)
    (hr : cipher.decrypt row.refresh_token = some rt) :
    (get_token cipher clock resp db uid).refreshCalls = 1 ↔
      normalizeUTC row.expires_at - clock.check < 300 := by
  unfold get_token
  rw [hrow]
  simp only [ha, hr]
  by_cases h : normalizeUTC row.expires_at - clock.check < 300
  · rw [if_pos h]
    cases hstep : refresh_token_step cipher resp rt row.id db clock.refresh with
    | error e => simpa using h
    | ok p => cases p with | mk a1 db1 => simpa using h
  · rw [if_neg h]
    simpa using h

/-- C2 witness: a token expiring in exactly 299 seconds triggers the
refresh protocol; one expiring in 301 seconds does not. -/
theorem get_token_refresh_window_witness :
    (get_token testCipher wClock okResp [mkRow ⟨299, none⟩] "u").refreshCalls = 1 ∧
    ¬ (get_token testCipher wClock okResp [mkRow ⟨301, none⟩] "u").refreshCalls = 1 := by
  constructor
  · exact (get_token_refresh_window testCipher wClock okResp
      [mkRow ⟨299, none⟩] "u" (mkRow ⟨299, none⟩) "oldA" "oldR"
      (by decide) (by decide) (by decide)).mpr (by decide)
  · intro hc
    exact absurd ((get_token_refresh_window testCipher wClock okResp
      [mkRow ⟨301, none⟩] "u" (mkRow ⟨301, none⟩) "oldA" "oldR"
      (by decide) (by decide) (by decide)).mp hc) (by decide)

/-- C5: on a successful refresh the new access token comes from the
required `access_token` field (its absence is an error), an absent
`refresh_token` retains the previous one, an absent `expires_in` defaults
to 3600 seconds, and the re-encrypted pair is persisted to the same row
with the new expiry and update timestamp. -/
theorem get_token_refresh_persists (cipher : Cipher) (clock : Clock)
    (resp : RefreshResponse) (db : List OAuthRow) (uid : String)
    (row : OAuthRow) (a rt : String)
    (hrow : canonicalRow db uid = some row)
    (ha : cipher.decrypt row.access_token = some a)
    (hr : cipher.decrypt row.refresh_token = some rt)
    (hwin : normalizeUTC row.expires_at - clock.check < 300)
    (hstatus : resp.status_code = 200) :
    (resp.access_token = none →
      (get_token cipher clock resp db uid).out = .error .missingAccessField) ∧
    (∀ newA, resp.access_token = some newA →
      (get_token cipher clock resp db uid).out =
        .ok ⟨newA, uid, normalizeUTC row.expires_at⟩ ∧
      List.Forall₂ (fun old new => old.id = row.id →
          new.access_token = cipher.encrypt newA ∧
          new.refresh_token = cipher.encrypt (resp.refresh_token.getD rt) ∧
          normalizeUTC new.expires_at = clock.refresh + resp.expires_in.getD 3600 ∧
          new.updated_at = clock.refresh)
        db (get_token cipher clock resp db uid).db) := by
  constructor
  · intro hacc
    unfold get_token
    rw [hrow]
    simp only [ha, hr]
    rw [if_pos hwin]
    unfold refresh_token_step
    simp [hstatus, hacc]
  · intro newA hacc
    unfold get_token
    rw [hrow]
    simp only [ha, hr]
    rw [if_pos hwin]
    unfold refresh_token_step
    simp only [hstatus, hacc, ne_eq, not_true_eq_false, if_false, ite_false]
    refine ⟨by simp, ?_⟩
    simp only [touchLastUsed, refreshUpdate, List.map_map]
    refine listMapRel _ db (fun x _ hid => ?_)
    simp [Function.comp, hid, normalizeUTC]

/-- C5 witness: a concrete refresh whose response has neither a
`refresh_token` nor an `expires_in` field retains the old refresh token
and persists expiry now + 3600. -/
theorem get_token_refresh_persists_witness :
    (get_token testCipher wClock okResp [mkRow ⟨100, none⟩] "u").out =
      .ok ⟨"NEWA", "u", normalizeUTC (mkRow ⟨100, none⟩).expires_at⟩ ∧
    List.Forall₂ (fun old new => old.id = (mkRow ⟨100, none⟩).id →
        new.access_token = testCipher.encrypt "NEWA" ∧
        new.refresh_token = testCipher.encrypt (okResp.refresh_token.getD "oldR") ∧
        normalizeUTC new.expires_at = wClock.refresh + okResp.expires_in.getD 3600 ∧
        new.updated_at = wClock.refresh)
      [mkRow ⟨100, none⟩]
      (get_token testCipher wClock okResp [mkRow ⟨100, none⟩] "u").db :=
  (get_token_refresh_persists testCipher wClock okResp [mkRow ⟨100, none⟩] "u"
    (mkRow ⟨100, none⟩) "oldA" "oldR"
    (by decide) (by decide) (by decide) (by decide) rfl).2 "NEWA" rfl

/-- C1 (code-bug evidence): on a store whose token is 100 seconds from
expiry, `get_token` runs the refresh protocol and persists the new expiry
3600, yet the returned token carries the replaced token's expiry 100. -/
theorem get_token_returns_replaced_expiry :
    (get_token testCipher wClock okResp [mkRow ⟨100, none⟩] "u").refreshCalls = 1 ∧
    (get_token testCipher wClock okResp [mkRow ⟨100, none⟩] "u").out =
      Except.ok ⟨"NEWA", "u", 100⟩ ∧
    ((get_token testCipher wClock okResp [mkRow ⟨100, none⟩] "u").db.map
      (fun r => normalizeUTC r.expires_at)) = [3600] ∧
    (100 : Int) ≠ 3600 :=
  ⟨by decide, rfl, by decide, by decide⟩

/-- The store after any `get_token` call is a pointwise image of the store
before it, by a function that preserves identity, ownership, provider,
the active flag, creation time and provider metadata, and that fixes every
row other than the canonical one. -/
lemma get_token_db_shape (cipher : Cipher) (clock : Clock)
    (resp : RefreshResponse) (db : List OAuthRow) (uid : String) :
    ∃ f : OAuthRow → OAuthRow,
      (get_token cipher clock resp db uid).db = db.map f ∧
      (∀ x, (f x).id = x.id ∧ (f x).user_id = x.user_id ∧
            (f x).provider = x.provider ∧ (f x).is_active = x.is_active ∧
            (f x).created_at = x.created_at ∧
            (f x).provider_metadata = x.provider_metadata) ∧
      (∀ row, canonicalRow db uid = some row →
        ∀ x, x.id ≠ row.id → f x = x) := by
  unfold get_token
  cases hrow : canonicalRow db uid with
  | none =>
    exact ⟨id, by simp, by simp, fun _ _ x _ => rfl⟩
  | some row =>
    cases hda : cipher.decrypt row.access_token with
    | none =>
      refine ⟨id, ?_, by simp, fun _ _ x _ => rfl⟩
      simp [hda]
    | some a =>
      cases hdr : cipher.decrypt row.refresh_token with
      | none =>
        refine ⟨id, ?_, by simp, fun _ _ x _ => rfl⟩
        simp [hda, hdr]
      | some rt =>
        by_cases hwin : normalizeUTC row.expires_at - clock.check < 300
        · cases hstep : refresh_token_step cipher resp rt row.id db clock.refresh with
          | error e =>
            refine ⟨id, ?_, by simp, fun _ _ x _ => rfl⟩
            simp [hda, hdr, if_pos hwin, hstep]
          | ok p =>
            obtain ⟨a1, db1⟩ := p
            obtain ⟨_, _, hdb1⟩ := refresh_step_ok hstep
            subst hdb1
            refine ⟨(fun r =>
                if r.id == row.id then { r with last_used_at := some clock.lastUsed } else r) ∘
              (fun r =>
                if r.id == row.id then
                  { r with access_token := cipher.encrypt a1,
                           refresh_token := cipher.encrypt (resp.refresh_token.getD rt),
                           expires_at := ⟨clock.refresh + resp.expires_in.getD 3600, some 0⟩,
                           updated_at := clock.refresh }
                else r), ?_, ?_, ?_⟩
            · simp [hda, hdr, if_pos hwin, hstep, touchLastUsed, refreshUpdate, List.map_map]
            · intro x
              by_cases hx : x.id = row.id <;>
                simp [Function.comp, hx]
            · intro row' h x hx
              injection h with h
              subst h
              simp [Function.comp, hx]
        · refine ⟨fun r =>
              if r.id == row.id then { r with last_used_at := some clock.lastUsed } else r,
            ?_, ?_, ?_⟩
          · simp [hda, hdr, if_neg hwin, touchLastUsed]
          · intro x
            by_cases hx : x.id = row.id <;> simp [hx]
          · intro row' h x hx
            injection h with h
            subst h
            simp [hx]

/-- C8: `get_token` never creates a store row and never writes the active
flag (nor identity, owner, provider, creation time or provider metadata);
every row other than the canonical one is left entirely unchanged. -/
theorem get_token_frame (cipher : Cipher) (clock : Clock)
    (resp : RefreshResponse) (db : List OAuthRow) (uid : String) :
    (get_token cipher clock resp db uid).db.length = db.length ∧
    List.Forall₂ (fun old new =>
        new.id = old.id ∧ new.user_id = old.user_id ∧
        new.provider = old.provider ∧ new.is_active = old.is_active ∧
        new.created_at = old.created_at ∧
        new.provider_metadata = old.provider_metadata)
      db (get_token cipher clock resp db uid).db ∧
    (∀ row, canonicalRow db uid = some row →
      List.Forall₂ (fun old new => old.id ≠ row.id → new = old)
        db (get_token cipher clock resp db uid).db) := by
  obtain ⟨f, hdb, hfields, huntouched⟩ := get_token_db_shape cipher clock resp db uid
  rw [hdb]
  refine ⟨by simp, ?_, ?_⟩
  · exact listMapRel f db (fun x _ => hfields x)
  · intro row hrow
    exact listMapRel f db (fun x _ hne => huntouched row hrow x hne)

/-- C8 witness: the frame condition evaluated on a concrete store. -/
theorem get_token_frame_witness :
    (get_token testCipher wClock okResp [mkRow ⟨100, none⟩] "u").db.length =
      [mkRow ⟨100, none⟩].length ∧
    List.Forall₂ (fun old new =>
        new.id = old.id ∧ new.user_id = old.user_id ∧
        new.provider = old.provider ∧ new.is_active = old.is_active ∧
        new.created_at = old.created_at ∧
        new.provider_metadata = old.provider_metadata)
      [mkRow ⟨100, none⟩]
      (get_token testCipher wClock okResp [mkRow ⟨100, none⟩] "u").db :=
  ⟨(get_token_frame testCipher wClock okResp [mkRow ⟨100, none⟩] "u").1,
   (get_token_frame testCipher wClock okResp [mkRow ⟨100, none⟩] "u").2.1⟩

/-! ## Pagination loop lemmas -/

variable {α : Type}

/-- A successful `graph_get` returns the body of the response to the built
request. -/
lemma graph_get_ok_body {net : GraphRequest → HttpResponse α}
    {token : Option String} {ep : String} {ps : List (String × String)}
    {b : GraphBody α} (h : graph_get net token ep ps = .ok b) :
    b = (net (buildRequest ep ps)).body := by
  unfold graph_get at h
  by_cases hm : tokenMissing token
  · simp [hm] at h
  · simp only [hm, if_false, Bool.false_eq_true] at h
    by_cases h401 : (net (buildRequest ep ps)).status_code == 401
    · simp [h401] at h
    · simp only [h401, if_false, Bool.false_eq_true] at h
      by_cases h400 : 400 ≤ (net (buildRequest ep ps)).status_code
      · simp [h400] at h
      · simp only [if_neg h400] at h
        exact (Except.ok.inj h).symm

/-- Every entry of the trace of a loop started with empty parameters
carries empty parameters. -/
lemma pagAux_params_nil {net : GraphRequest → HttpResponse α}
    {token : Option String} {maxCount : Nat} :
    ∀ fuel ep acc tr r,
      pagAux net token maxCount fuel ep [] acc = some (tr, r) →
      ∀ e ∈ tr, e.params = [] := by
  intro fuel
  induction fuel with
  | zero => intro ep acc tr r h; simp [pagAux] at h
  | succ n ih =>
    intro ep acc tr r h
    simp only [pagAux] at h
    by_cases hfull : maxCount ≤ acc.length
    · rw [if_pos hfull] at h
      simp at h
      obtain ⟨h1, _⟩ := h
      subst h1
      simp
    · rw [if_neg hfull] at h
      cases hpage : graph_get net token ep [] with
      | error e =>
        rw [hpage] at h
        simp only [] at h
        simp at h
        obtain ⟨h1, _⟩ := h
        subst h1
        simp
      | ok body =>
        rw [hpage] at h
        simp only [] at h
        cases hnl : body.nextLink with
        | none =>
          rw [hnl] at h
          simp at h
          obtain ⟨h1, _⟩ := h
          subst h1
          simp
        | some link =>
          rw [hnl] at h
          simp only [] at h
          by_cases hov : maxCount ≤ (acc ++ body.value).length
          · rw [if_pos hov] at h
            simp at h
            obtain ⟨h1, _⟩ := h
            subst h1
            simp
          · rw [if_neg hov] at h
            cases hrec : pagAux net token maxCount n link [] (acc ++ body.value) with
            | none => rw [hrec] at h; simp at h
            | some p =>
              obtain ⟨tr', r'⟩ := p
              rw [hrec] at h
              simp at h
              obtain ⟨h1, _⟩ := h
              subst h1
              intro e he
              rcases List.mem_cons.mp he with he | he
              · subst he; rfl
              · exact ih link (acc ++ body.value) tr' r' hrec e he

/-- Every entry after the first of any loop trace carries empty
parameters. -/
lemma pagAux_tail_params_nil {net : GraphRequest → HttpResponse α}
    {token : Option String} {maxCount : Nat}
    {fuel : Nat} {ep : String} {ps : List (String × String)}
    {acc : List α} {tr : List (TraceEntry α)} {r : Except GraphErr (List α)}
    (h : pagAux net token maxCount fuel ep ps acc = some (tr, r)) :
    ∀ e ∈ tr.drop 1, e.params = [] := by
  cases fuel with
  | zero => simp [pagAux] at h
  | succ n =>
    simp only [pagAux] at h
    by_cases hfull : maxCount ≤ acc.length
    · rw [if_pos hfull] at h
      simp at h
      obtain ⟨h1, _⟩ := h
      subst h1
      simp
    · rw [if_neg hfull] at h
      cases hpage : graph_get net token ep ps with
      | error e =>
        rw [hpage] at h
        simp only [] at h
        simp at h
        obtain ⟨h1, _⟩ := h
        subst h1
        simp
      | ok body =>
        rw [hpage] at h
        simp only [] at h
        cases hnl : body.nextLink with
        | none =>
          rw [hnl] at h
          simp at h
          obtain ⟨h1, _⟩ := h
          subst h1
          simp
        | some link =>
          rw [hnl] at h
          simp only [] at h
          by_cases hov : maxCount ≤ (acc ++ body.value).length
          · rw [if_pos hov] at h
            simp at h
            obtain ⟨h1, _⟩ := h
            subst h1
            simp
          · rw [if_neg hov] at h
            cases hrec : pagAux net token maxCount n link [] (acc ++ body.value) with
            | none => rw [hrec] at h; simp at h
            | some p =>
              obtain ⟨tr', r'⟩ := p
              rw [hrec] at h
              simp at h
              obtain ⟨h1, _⟩ := h
              subst h1
              simpa using pagAux_params_nil n link (acc ++ body.value) tr' r' hrec

/-- C6: `graph_get` fails `AuthMissing` with no request issued when no
bearer token is bound (the result does not depend on the network at all);
otherwise a 401 maps to `ReauthNeeded`, any other status ≥ 400 maps to
`UpstreamError` carrying that status, and a status < 400 returns the
parsed body. -/
theorem graph_get_status_mapping (net : GraphRequest → HttpResponse α)
    (token : Option String) (ep : String) (ps : List (String × String)) :
    (tokenMissing token = true →
      ∀ net' : GraphRequest → HttpResponse α,
        graph_get net' token ep ps = .error .authMissing) ∧
    (tokenMissing token = false →
      ((net (buildRequest ep ps)).status_code = 401 →
        graph_get net token ep ps = .error .reauthNeeded) ∧
      ((net (buildRequest ep ps)).status_code ≠ 401 →
        400 ≤ (net (buildRequest ep ps)).status_code →
        graph_get net token ep ps =
          .error (.upstreamError (net (buildRequest ep ps)).status_code)) ∧
      ((net (buildRequest ep ps)).status_code < 400 →
        graph_get net token ep ps = .ok (net (buildRequest ep ps)).body)) := by
  refine ⟨fun hm net' => by simp [graph_get, hm], fun hm => ⟨?_, ?_, ?_⟩⟩
  · intro h401
    simp [graph_get, hm, h401]
  · intro hne h400
    simp [graph_get, hm, hne, h400]
  · intro hlt
    have hne : (net (buildRequest ep ps)).status_code ≠ 401 := by omega
    have h400 : ¬ 400 ≤ (net (buildRequest ep ps)).status_code := by omega
    simp [graph_get, hm, hne, h400]

/-- C6 witness: the four outcomes on concrete responses. -/
theorem graph_get_status_mapping_witness :
    graph_get (constNet ⟨200, ⟨[5], none⟩⟩) (none : Option String) "me/x" [] =
      .error .authMissing ∧
    graph_get (constNet ⟨401, ⟨[], none⟩⟩) (some "t") "me/x" [] =
      .error .reauthNeeded ∧
    graph_get (constNet ⟨503, ⟨[], none⟩⟩) (some "t") "me/x" [] =
      .error (.upstreamError 503) ∧
    graph_get (constNet ⟨200, ⟨[5], none⟩⟩) (some "t") "me/x" [] =
      .ok ⟨[5], none⟩ :=
  ⟨(graph_get_status_mapping (constNet ⟨200, ⟨[5], none⟩⟩) none "me/x" []).1
      (by decide) _,
   ((graph_get_status_mapping (constNet ⟨401, ⟨[], none⟩⟩) (some "t") "me/x" []).2
      (by decide)).1 rfl,
   ((graph_get_status_mapping (constNet ⟨503, ⟨[], none⟩⟩) (some "t") "me/x" []).2
      (by decide)).2.1 (by decide) (by decide),
   ((graph_get_status_mapping (constNet ⟨200, ⟨[5], none⟩⟩) (some "t") "me/x" []).2
      (by decide)).2.2 (by decide)⟩

/-- C4: a fully-qualified continuation reference (an endpoint starting
with "http") is used verbatim with the supplied query parameters ignored,
and every continuation call of the pagination loop (every call after the
first) carries empty parameters. -/
theorem continuation_params_cleared (net : GraphRequest → HttpResponse α)
    (token : Option String) :
    (∀ ep ps, pyStartsWith ep "http" = true →
      buildRequest ep ps = ⟨ep, none⟩ ∧
      ∀ ps', graph_get net token ep ps = graph_get net token ep ps') ∧
    (∀ ep ps maxCount fuel tr r,
      graph_get_paginated net token ep maxCount ps fuel = some (tr, r) →
      ∀ e ∈ tr.drop 1, e.params = []) := by
  constructor
  · intro ep ps hhttp
    constructor
    · simp [buildRequest, hhttp]
    · intro ps'
      simp [graph_get, buildRequest, hhttp]
  · intro ep ps maxCount fuel tr r h
    unfold graph_get_paginated at h
    cases hp : pagAux net token maxCount fuel ep ps [] with
    | none => rw [hp] at h; simp at h
    | some p =>
      obtain ⟨tr0, r0⟩ := p
      rw [hp] at h
      simp at h
      obtain ⟨h1, _⟩ := h
      subst h1
      exact pagAux_tail_params_nil hp

/-- C4 witness: a continuation reference is passed through verbatim with
no parameters attached. -/
theorem continuation_params_cleared_witness :
    buildRequest "http://x" [("a", "b")] = ⟨"http://x", none⟩ :=
  ((continuation_params_cleared pagesNet (some "t")).1 "http://x"
    [("a", "b")] (by decide)).1

/-- Every request of the loop is issued while the accumulated count is
still strictly below `max_count`. -/
lemma pagAux_accBefore {net : GraphRequest → HttpResponse α}
    {token : Option String} {maxCount : Nat} :
    ∀ fuel ep ps acc tr r,
      pagAux net token maxCount fuel ep ps acc = some (tr, r) →
      ∀ e ∈ tr, e.accBefore < maxCount := by
  intro fuel
  induction fuel with
  | zero => intro ep ps acc tr r h; simp [pagAux] at h
  | succ n ih =>
    intro ep ps acc tr r h
    simp only [pagAux] at h
    by_cases hfull : maxCount ≤ acc.length
    · rw [if_pos hfull] at h
      simp at h
      obtain ⟨h1, _⟩ := h
      subst h1
      simp
    · rw [if_neg hfull] at h
      have hlt : acc.length < maxCount := Nat.lt_of_not_le hfull
      cases hpage : graph_get net token ep ps with
      | error e =>
        rw [hpage] at h
        simp only [] at h
        simp at h
        obtain ⟨h1, _⟩ := h
        subst h1
        simpa using hlt
      | ok body =>
        rw [hpage] at h
        simp only [] at h
        cases hnl : body.nextLink with
        | none =>
          rw [hnl] at h
          simp at h
          obtain ⟨h1, _⟩ := h
          subst h1
          simpa using hlt
        | some link =>
          rw [hnl] at h
          simp only [] at h
          by_cases hov : maxCount ≤ (acc ++ body.value).length
          · rw [if_pos hov] at h
            simp at h
            obtain ⟨h1, _⟩ := h
            subst h1
            simpa using hlt
          · rw [if_neg hov] at h
            cases hrec : pagAux net token maxCount n link [] (acc ++ body.value) with
            | none => rw [hrec] at h; simp at h
            | some p =>
              obtain ⟨tr', r'⟩ := p
              rw [hrec] at h
              simp at h
              obtain ⟨h1, _⟩ := h
              subst h1
              intro e he
              rcases List.mem_cons.mp he with he | he
              · subst he; simpa using hlt
              · exact ih link [] (acc ++ body.value) tr' r' hrec e he

/-- On success the loop's accumulated list is the initial accumulator
followed by the concatenated page contents of the trace. -/
lemma pagAux_ok_values {net : GraphRequest → HttpResponse α}
    {token : Option String} {maxCount : Nat} :
    ∀ fuel ep ps acc tr v,
      pagAux net token maxCount fuel ep ps acc = some (tr, .ok v) →
      v = acc ++ traceValues tr := by
  intro fuel
  induction fuel with
  | zero => intro ep ps acc tr v h; simp [pagAux] at h
  | succ n ih =>
    intro ep ps acc tr v h
    simp only [pagAux] at h
    by_cases hfull : maxCount ≤ acc.length
    · rw [if_pos hfull] at h
      simp at h
      obtain ⟨h1, h2⟩ := h
      subst h1
      simp [traceValues, h2]
    · rw [if_neg hfull] at h
      cases hpage : graph_get net token ep ps with
      | error e =>
        rw [hpage] at h
        simp only [] at h
        simp at h
      | ok body =>
        rw [hpage] at h
        simp only [] at h
        cases hnl : body.nextLink with
        | none =>
          rw [hnl] at h
          simp at h
          obtain ⟨h1, h2⟩ := h
          subst h1
          simp [traceValues, h2]
        | some link =>
          rw [hnl] at h
          simp only [] at h
          by_cases hov : maxCount ≤ (acc ++ body.value).length
          · rw [if_pos hov] at h
            simp at h
            obtain ⟨h1, h2⟩ := h
            subst h1
            simp [traceValues, h2]
          · rw [if_neg hov] at h
            cases hrec : pagAux net token maxCount n link [] (acc ++ body.value) with
            | none => rw [hrec] at h; simp at h
            | some p =>
              obtain ⟨tr', r'⟩ := p
              rw [hrec] at h
              simp at h
              obtain ⟨h1, h2⟩ := h
              subst h1
              subst h2
              have := ih link [] (acc ++ body.value) tr' v hrec
              simp [traceValues, this, List.append_assoc]

/-- A failing loop ends exactly at the failing request: the trace is some
prefix followed by the failing entry. -/
lemma pagAux_error_last {net : GraphRequest → HttpResponse α}
    {token : Option String} {maxCount : Nat} :
    ∀ fuel ep ps acc tr ge,
      pagAux net token maxCount fuel ep ps acc = some (tr, .error ge) →
      ∃ pre e, tr = pre ++ [e] ∧ e.page = .error ge := by
  intro fuel
  induction fuel with
  | zero => intro ep ps acc tr ge h; simp [pagAux] at h
  | succ n ih =>
    intro ep ps acc tr ge h
    simp only [pagAux] at h
    by_cases hfull : maxCount ≤ acc.length
    · rw [if_pos hfull] at h
      simp at h
    · rw [if_neg hfull] at h
      cases hpage : graph_get net token ep ps with
      | error e =>
        rw [hpage] at h
        simp only [] at h
        simp at h
        obtain ⟨h1, h2⟩ := h
        subst h1
        exact ⟨[], _, rfl, by rw [h2]⟩
      | ok body =>
        rw [hpage] at h
        simp only [] at h
        cases hnl : body.nextLink with
        | none =>
          rw [hnl] at h
          simp at h
        | some link =>
          rw [hnl] at h
          simp only [] at h
          by_cases hov : maxCount ≤ (acc ++ body.value).length
          · rw [if_pos hov] at h
            simp at h
          · rw [if_neg hov] at h
            cases hrec : pagAux net token maxCount n link [] (acc ++ body.value) with
            | none => rw [hrec] at h; simp at h
            | some p =>
              obtain ⟨tr', r'⟩ := p
              rw [hrec] at h
              simp at h
              obtain ⟨h1, h2⟩ := h
              subst h1
              subst h2
              obtain ⟨pre, e, hpre, hpg⟩ := ih link [] (acc ++ body.value) tr' ge hrec
              exact ⟨_ :: pre, e, by rw [hpre]; rfl, hpg⟩

/-- If one of the loop's stop conditions is reached within `n` requests,
the loop terminates within `n` iterations. -/
lemma stopsWithin_terminates {net : GraphRequest → HttpResponse α}
    {token : Option String} {maxCount : Nat} :
    ∀ n ep ps (acc : List α),
      stopsWithin net token maxCount n ep ps acc.length = true →
      pagAux net token maxCount n ep ps acc ≠ none := by
  intro n
  induction n with
  | zero => intro ep ps acc h; simp [stopsWithin] at h
  | succ n ih =>
    intro ep ps acc h
    simp only [stopsWithin] at h
    simp only [pagAux]
    by_cases hfull : maxCount ≤ acc.length
    · rw [if_pos hfull]; simp
    · rw [if_neg hfull] at h ⊢
      cases hpage : graph_get net token ep ps with
      | error e =>
        simp only []
        simp
      | ok body =>
        rw [hpage] at h
        simp only [] at h ⊢
        cases hnl : body.nextLink with
        | none =>
          simp
        | some link =>
          rw [hnl] at h
          simp only [] at h ⊢
          by_cases hov : maxCount ≤ acc.length + body.value.length
          · rw [if_pos (show maxCount ≤ (acc ++ body.value).length by
              simpa [List.length_append] using hov)]
            simp
          · rw [if_neg hov] at h
            rw [if_neg (show ¬ maxCount ≤ (acc ++ body.value).length by
              simpa [List.length_append] using hov)]
            have hnext := ih link [] (acc ++ body.value)
              (by rw [List.length_append]; exact h)
            cases hrec : pagAux net token maxCount n link [] (acc ++ body.value) with
            | none => exact absurd hrec hnext
            | some p =>
              obtain ⟨tr', r'⟩ := p
              simp

/-- If every page carrying a continuation link is non-empty, the loop
terminates with fuel `max_count + 1`: every continuing iteration strictly
increases the accumulated count, which is bounded by `max_count`. -/
lemma pagAux_good_terminates {net : GraphRequest → HttpResponse α}
    {token : Option String} {maxCount : Nat}
    (hgood : ∀ req, (net req).body.nextLink ≠ none → (net req).body.value ≠ []) :
    ∀ n (acc : List α) ep ps, maxCount ≤ acc.length + n →
      pagAux net token maxCount (n + 1) ep ps acc ≠ none := by
  intro n
  induction n with
  | zero =>
    intro acc ep ps hb
    simp only [pagAux]
    rw [if_pos (by simpa using hb)]
    simp
  | succ n ih =>
    intro acc ep ps hb
    rw [pagAux.eq_def]
    simp only []
    by_cases hfull : maxCount ≤ acc.length
    · rw [if_pos hfull]; simp
    · rw [if_neg hfull]
      cases hpage : graph_get net token ep ps with
      | error e =>
        simp only []
        simp
      | ok body =>
        simp only []
        cases hnl : body.nextLink with
        | none => simp
        | some link =>
          simp only []
          by_cases hov : maxCount ≤ (acc ++ body.value).length
          · rw [if_pos hov]; simp
          · rw [if_neg hov]
            have hbody : body = (net (buildRequest ep ps)).body := graph_get_ok_body hpage
            have hval : body.value ≠ [] := by
              rw [hbody]
              apply hgood
              rw [← hbody, hnl]
              simp
            have hlen : 1 ≤ body.value.length := by
              cases hv : body.value with
              | nil => exact absurd hv hval
              | cons a as => simp
            have hb' : maxCount ≤ (acc ++ body.value).length + n := by
              rw [List.length_append]; omega
            have hnext := ih (acc ++ body.value) link [] hb'
            cases hrec : pagAux net token maxCount (n + 1) link [] (acc ++ body.value) with
            | none => exact absurd hrec hnext
            | some p =>
              obtain ⟨tr', r'⟩ := p
              simp

/-- Against a source that always returns an empty page with a continuation
link, the loop never terminates: no amount of fuel produces a result. -/
lemma pagAux_empty_loops :
    ∀ fuel ep ps (acc : List Nat) (mc : Nat), acc.length < mc →
      pagAux emptyPagesNet (some "t") mc fuel ep ps acc = none := by
  intro fuel
  induction fuel with
  | zero => intro ep ps acc mc _; simp [pagAux]
  | succ n ih =>
    intro ep ps acc mc hlt
    simp only [pagAux]
    rw [if_neg (by omega)]
    have hpage : graph_get emptyPagesNet (some "t") ep ps =
        .ok ⟨[], some "http://next"⟩ := rfl
    rw [hpage]
    simp only []
    simp only [List.append_nil]
    rw [if_neg (show ¬ mc ≤ acc.length by omega)]
    rw [ih "http://next" [] acc mc hlt]

/-- C3: for fuel covering the finite page sequence the loop terminates at
its stop conditions; every request is issued only while fewer than
`max_count` items have accumulated; a failure is the outcome of the last
issued request and no items are returned with it; and a successful result
is exactly the first `max_count` fetched items even when the final page
overshoots the bound. -/
theorem graph_get_paginated_cap (net : GraphRequest → HttpResponse α)
    (token : Option String) (ep : String) (ps : List (String × String))
    (maxCount : Nat) (hpos : 1 ≤ maxCount) :
    (∀ n, stopsWithin net token maxCount n ep ps 0 = true →
      ∃ r, graph_get_paginated net token ep maxCount ps n = some r) ∧
    (∀ fuel tr r, graph_get_paginated net token ep maxCount ps fuel = some (tr, r) →
      (∀ e ∈ tr, e.accBefore < maxCount) ∧
      (∀ ge, r = .error ge → ∃ pre e, tr = pre ++ [e] ∧ e.page = .error ge) ∧
      (∀ items, r = .ok items →
        items = (traceValues tr).take maxCount ∧
        items.length ≤ maxCount ∧
        (maxCount ≤ (traceValues tr).length → items.length = maxCount))) := by
  constructor
  · intro n hstop
    have hterm := stopsWithin_terminates n ep ps ([] : List α) (by simpa using hstop)
    unfold graph_get_paginated
    cases hp : pagAux net token maxCount n ep ps [] with
    | none => exact absurd hp hterm
    | some p =>
      obtain ⟨tr0, r0⟩ := p
      exact ⟨_, rfl⟩
  · intro fuel tr r h
    unfold graph_get_paginated at h
    cases hp : pagAux net token maxCount fuel ep ps [] with
    | none => rw [hp] at h; simp at h
    | some p =>
      obtain ⟨tr0, r0⟩ := p
      rw [hp] at h
      simp only [] at h
      simp at h
      obtain ⟨h1, h2⟩ := h
      subst h1
      refine ⟨pagAux_accBefore fuel ep ps [] tr0 r0 hp, ?_, ?_⟩
      · intro ge hge
        subst h2
        cases hr0 : r0 with
        | ok v => rw [hr0] at hge; simp [Except.map] at hge
        | error e0 =>
          rw [hr0] at hge
          simp [Except.map] at hge
          subst hge
          exact pagAux_error_last fuel ep ps [] tr0 e0 (by rw [hr0] at hp; exact hp)
      · intro items hitems
        subst h2
        cases hr0 : r0 with
        | error e0 => rw [hr0] at hitems; simp [Except.map] at hitems
        | ok v =>
          rw [hr0] at hitems
          simp [Except.map] at hitems
          have hv : v = traceValues tr0 := by
            have hval := pagAux_ok_values fuel ep ps [] tr0 v (by rw [hr0] at hp; exact hp)
            simpa using hval
          subst hitems
          subst hv
          refine ⟨rfl, ?_, ?_⟩
          · rw [List.length_take]
            exact Nat.min_le_left _ _
          · intro hge
            rw [List.length_take]
            omega

/-- C3 witness: against pages of ten items with continuation links and
`max_count = 25`, the stop condition is reached at the third request and
the loop terminates with that fuel. -/
theorem graph_get_paginated_cap_witness :
    ∃ r, graph_get_paginated pagesNet (some "t") "start" 25
      ([] : List (String × String)) 3 = some r :=
  (graph_get_paginated_cap pagesNet (some "t") "start" [] 25
    (by decide)).1 3 (by decide)

/-- C9: if every page carrying a continuation link holds at least one
item, the loop terminates with fuel `max_count + 1`; against a source of
empty pages with continuation links it runs forever (returns no result
for any fuel). -/
theorem graph_get_paginated_progress (net : GraphRequest → HttpResponse α)
    (token : Option String) (ep : String) (ps : List (String × String))
    (maxCount : Nat) (hpos : 1 ≤ maxCount)
    (hgood : ∀ req, (net req).body.nextLink ≠ none → (net req).body.value ≠ []) :
    (∃ r, graph_get_paginated net token ep maxCount ps (maxCount + 1) = some r) ∧
    (∀ fuel ep' ps' mc, 1 ≤ mc →
      graph_get_paginated emptyPagesNet (some "t") ep' mc ps' fuel = none) := by
  constructor
  · have hterm := @pagAux_good_terminates α net token maxCount hgood
      maxCount ([] : List α) ep ps
      (show maxCount ≤ ([] : List α).length + maxCount by simp)
    unfold graph_get_paginated
    cases hp : pagAux net token maxCount (maxCount + 1) ep ps [] with
    | none => exact absurd hp hterm
    | some p =>
      obtain ⟨tr0, r0⟩ := p
      exact ⟨_, rfl⟩
  · intro fuel ep' ps' mc hmc
    unfold graph_get_paginated
    rw [pagAux_empty_loops fuel ep' ps' [] mc (by simpa using hmc)]

/-- C9 witness: ten-item pages terminate within `max_count + 1` requests;
empty pages with continuation links yield no result at fuel 5. -/
theorem graph_get_paginated_progress_witness :
    (∃ r, graph_get_paginated pagesNet (some "t") "start" 2
      ([] : List (String × String)) 3 = some r) ∧
    graph_get_paginated emptyPagesNet (some "t") "start" 1 [] 5 = none :=
  ⟨(graph_get_paginated_progress pagesNet (some "t") "start" [] 2
      (by decide) (fun _ _ => by simp [pagesNet])).1,
   (graph_get_paginated_progress pagesNet (some "t") "start" [] 2
      (by decide) (fun _ _ => by simp [pagesNet])).2 5 "start" [] 1 (by decide)⟩

/-! ## Search fallback lemmas -/

/-- A non-truthy term is skipped by the individual-fallback loop. -/
lemma tryIndividual_skip {fetch : List (String × String) → Except GraphErr (List α)}
    {count : Int} {name : String} {val : Option String}
    {rest : List (String × Option String)} (h : truthy val = false) :
    tryIndividual fetch count ((name, val) :: rest) = tryIndividual fetch count rest := by
  simp [tryIndividual, h]

/-- A failing or empty individual attempt is swallowed and the loop moves
to the next term. -/
lemma tryIndividual_fail {fetch : List (String × String) → Except GraphErr (List α)}
    {count : Int} {name : String} {val : Option String}
    {rest : List (String × Option String)} (ht : truthy val = true)
    (hf : attemptFailedOrEmpty (fetch (individualParams count name (val.getD ""))) = true) :
    tryIndividual fetch count ((name, val) :: rest) = tryIndividual fetch count rest := by
  simp only [tryIndividual, ht, if_true]
  cases hfe : fetch (individualParams count name (val.getD "")) with
  | ok es =>
    rw [hfe] at hf
    simp [attemptFailedOrEmpty] at hf
    simp [hf]
  | error e => rfl

/-- The first truthy term whose attempt yields non-empty results wins,
labelled with that term's name. -/
lemma tryIndividual_hit {fetch : List (String × String) → Except GraphErr (List α)}
    {count : Int} {name : String} {val : Option String}
    {rest : List (String × Option String)} {es : List α} (ht : truthy val = true)
    (hf : fetch (individualParams count name (val.getD "")) = .ok es)
    (hne : es ≠ []) :
    tryIndividual fetch count ((name, val) :: rest) = some (es, name ++ " search") := by
  simp only [tryIndividual, ht, if_true]
  rw [hf]
  simp only []
  cases es with
  | nil => exact absurd rfl hne
  | cons a l => simp

/-- Any result of the individual-fallback loop comes from some fetch that
succeeded with exactly those items. -/
lemma tryIndividual_some_src {fetch : List (String × String) → Except GraphErr (List α)}
    {count : Int} :
    ∀ l (es : List α) lbl, tryIndividual fetch count l = some (es, lbl) →
      ∃ p, fetch p = .ok es := by
  intro l
  induction l with
  | nil => intro es lbl h; simp [tryIndividual] at h
  | cons hd tl ih =>
    obtain ⟨name, val⟩ := hd
    intro es lbl h
    simp only [tryIndividual] at h
    by_cases ht : truthy val = true
    · rw [if_pos ht] at h
      cases hf : fetch (individualParams count name (val.getD "")) with
      | ok es2 =>
        rw [hf] at h
        simp only [] at h
        by_cases he : es2.isEmpty = true
        · rw [if_pos he] at h
          exact ih es lbl h
        · rw [if_neg he] at h
          simp at h
          obtain ⟨h1, _⟩ := h
          exact ⟨_, by rw [hf, h1]⟩
      | error e =>
        rw [hf] at h
        simp only [] at h
        exact ih es lbl h
    · rw [if_neg ht] at h
      exact ih es lbl h

/-- Every successful `search_emails` result was produced by some
underlying fetch that returned exactly those items. -/
lemma search_emails_ok_src {fetch : List (String × String) → Except GraphErr (List α)}
    {q s f : Option String} {ha uo : Option Bool} {c : Int}
    {items : List α} {lbl : String}
    (h : search_emails fetch q s f ha uo c = .ok (items, lbl)) :
    ∃ p, fetch p = .ok items := by
  unfold search_emails at h
  simp only [] at h
  have hcont : ∀ hc : (match tryIndividual fetch (clampCount c)
        [("subject", s), ("from", f), ("query", q)] with
      | some r => Except.ok r
      | none =>
        match fetch (searchBaseParams (clampCount c)) with
        | .error e => Except.error e
        | .ok es => Except.ok (es, "recent emails fallback")) = .ok (items, lbl),
      ∃ p, fetch p = .ok items := by
    intro hc
    cases hti : tryIndividual fetch (clampCount c)
        [("subject", s), ("from", f), ("query", q)] with
    | some r =>
      obtain ⟨es2, lbl2⟩ := r
      rw [hti] at hc
      simp at hc
      obtain ⟨h1, _⟩ := hc
      subst h1
      exact tryIndividual_some_src _ _ lbl2 hti
    | none =>
      rw [hti] at hc
      simp only [] at hc
      cases hfb : fetch (searchBaseParams (clampCount c)) with
      | error e => rw [hfb] at hc; simp at hc
      | ok es3 =>
        rw [hfb] at hc
        simp at hc
        obtain ⟨h1, _⟩ := hc
        exact ⟨_, by rw [hfb, h1]⟩
  cases hf : fetch (combinedParams q s f ha uo (clampCount c)) with
  | ok es =>
    rw [hf] at h
    simp only [] at h
    by_cases he : es.isEmpty = true
    · rw [if_pos he] at h
      simp only [] at h
      exact hcont h
    · rw [if_neg he] at h
      simp only [] at h
      simp at h
      obtain ⟨h1, _⟩ := h
      exact ⟨_, by rw [hf, h1]⟩
  | error e =>
    rw [hf] at h
    simp only [] at h
    exact hcont h

/-- When the combined tier failed or returned empty, `search_emails` is
exactly its fallback phase: the individual loop, then the unconditional
recent-emails fetch. -/
lemma search_after_combined {fetch : List (String × String) → Except GraphErr (List α)}
    {q s f : Option String} {ha uo : Option Bool} {c : Int}
    (hcomb : attemptFailedOrEmpty
      (fetch (combinedParams q s f ha uo (clampCount c))) = true) :
    search_emails fetch q s f ha uo c =
      (match tryIndividual fetch (clampCount c)
          [("subject", s), ("from", f), ("query", q)] with
        | some r => .ok r
        | none =>
          match fetch (searchBaseParams (clampCount c)) with
          | .error e => .error e
          | .ok es => .ok (es, "recent emails fallback")) := by
  unfold search_emails
  simp only []
  cases hfc : fetch (combinedParams q s f ha uo (clampCount c)) with
  | ok es0 =>
    rw [hfc] at hcomb
    simp [attemptFailedOrEmpty] at hcomb
    subst hcomb
    rfl
  | error e0 => rfl

/-- A successful capped paginated fetch returns at most `max_count`
items. -/
lemma graph_get_paginated_length_le {net : GraphRequest → HttpResponse α}
    {token : Option String} {ep : String} {mc : Nat}
    {ps : List (String × String)} {fuel : Nat}
    {tr : List (TraceEntry α)} {items : List α}
    (h : graph_get_paginated net token ep mc ps fuel = some (tr, .ok items)) :
    items.length ≤ mc := by
  unfold graph_get_paginated at h
  cases hp : pagAux net token mc fuel ep ps [] with
  | none => rw [hp] at h; simp at h
  | some p =>
    obtain ⟨tr0, r0⟩ := p
    rw [hp] at h
    simp only [] at h
    simp at h
    obtain ⟨_, h2⟩ := h
    cases hr0 : r0 with
    | error e0 => rw [hr0] at h2; simp [Except.map] at h2
    | ok v =>
      rw [hr0] at h2
      simp [Except.map] at h2
      rw [← h2, List.length_take]
      exact Nat.min_le_left _ _

/-- C7: when the combined tier failed or returned empty, the individual
tier tries the truthy terms in order subject, from, query, each quoted
alone, swallowing failures and empties and returning the first non-empty
success under that term's label; if nothing succeeded, the unfiltered
recent-emails fetch is always executed and its failure propagates. -/
theorem search_fallback_tiers (fetch : List (String × String) → Except GraphErr (List α))
    (query subject from_address : Option String)
    (ha uo : Option Bool) (c : Int)
    (hcomb : attemptFailedOrEmpty
      (fetch (combinedParams query subject from_address ha uo (clampCount c))) = true) :
    (∀ es, truthy subject = true →
      fetch (individualParams (clampCount c) "subject" (subject.getD "")) = .ok es →
      es ≠ [] →
      search_emails fetch query subject from_address ha uo c =
        .ok (es, "subject search")) ∧
    (∀ es, (truthy subject = true →
        attemptFailedOrEmpty
          (fetch (individualParams (clampCount c) "subject" (subject.getD ""))) = true) →
      truthy from_address = true →
      fetch (individualParams (clampCount c) "from" (from_address.getD "")) = .ok es →
      es ≠ [] →
      search_emails fetch query subject from_address ha uo c =
        .ok (es, "from search")) ∧
    (∀ es, (truthy subject = true →
        attemptFailedOrEmpty
          (fetch (individualParams (clampCount c) "subject" (subject.getD ""))) = true) →
      (truthy from_address = true →
        attemptFailedOrEmpty
          (fetch (individualParams (clampCount c) "from" (from_address.getD ""))) = true) →
      truthy query = true →
      fetch (individualParams (clampCount c) "query" (query.getD "")) = .ok es →
      es ≠ [] →
      search_emails fetch query subject from_address ha uo c =
        .ok (es, "query search")) ∧
    ((truthy subject = true →
        attemptFailedOrEmpty
          (fetch (individualParams (clampCount c) "subject" (subject.getD ""))) = true) →
      (truthy from_address = true →
        attemptFailedOrEmpty
          (fetch (individualParams (clampCount c) "from" (from_address.getD ""))) = true) →
      (truthy query = true →
        attemptFailedOrEmpty
          (fetch (individualParams (clampCount c) "query" (query.getD ""))) = true) →
      (∀ ge, fetch (searchBaseParams (clampCount c)) = .error ge →
        search_emails fetch query subject from_address ha uo c = .error ge) ∧
      (∀ es, fetch (searchBaseParams (clampCount c)) = .ok es →
        search_emails fetch query subject from_address ha uo c =
          .ok (es, "recent emails fallback"))) := by
  refine ⟨?_, ?_, ?_, ?_⟩
  · intro es ht hf hne
    rw [search_after_combined hcomb, tryIndividual_hit ht hf hne]
    rfl
  · intro es hsub ht hf hne
    have step1 : tryIndividual fetch (clampCount c)
        [("subject", subject), ("from", from_address), ("query", query)] =
        tryIndividual fetch (clampCount c) [("from", from_address), ("query", query)] := by
      by_cases hts : truthy subject = true
      · exact tryIndividual_fail hts (hsub hts)
      · rw [Bool.not_eq_true] at hts
        exact tryIndividual_skip hts
    rw [search_after_combined hcomb, step1, tryIndividual_hit ht hf hne]
    rfl
  · intro es hsub hfrom ht hf hne
    have step1 : tryIndividual fetch (clampCount c)
        [("subject", subject), ("from", from_address), ("query", query)] =
        tryIndividual fetch (clampCount c) [("from", from_address), ("query", query)] := by
      by_cases hts : truthy subject = true
      · exact tryIndividual_fail hts (hsub hts)
      · rw [Bool.not_eq_true] at hts
        exact tryIndividual_skip hts
    have step2 : tryIndividual fetch (clampCount c)
        [("from", from_address), ("query", query)] =
        tryIndividual fetch (clampCount c) [("query", query)] := by
      by_cases htf : truthy from_address = true
      · exact tryIndividual_fail htf (hfrom htf)
      · rw [Bool.not_eq_true] at htf
        exact tryIndividual_skip htf
    rw [search_after_combined hcomb, step1, step2, tryIndividual_hit ht hf hne]
    rfl
  · intro hsub hfrom hquery
    have step1 : tryIndividual fetch (clampCount c)
        [("subject", subject), ("from", from_address), ("query", query)] =
        tryIndividual fetch (clampCount c) [("from", from_address), ("query", query)] := by
      by_cases hts : truthy subject = true
      · exact tryIndividual_fail hts (hsub hts)
      · rw [Bool.not_eq_true] at hts
        exact tryIndividual_skip hts
    have step2 : tryIndividual fetch (clampCount c)
        [("from", from_address), ("query", query)] =
        tryIndividual fetch (clampCount c) [("query", query)] := by
      by_cases htf : truthy from_address = true
      · exact tryIndividual_fail htf (hfrom htf)
      · rw [Bool.not_eq_true] at htf
        exact tryIndividual_skip htf
    have step3 : tryIndividual fetch (clampCount c) [("query", query)] =
        tryIndividual fetch (clampCount c) [] := by
      by_cases htq : truthy query = true
      · exact tryIndividual_fail htq (hquery htq)
      · rw [Bool.not_eq_true] at htq
        exact tryIndividual_skip htq
    constructor
    · intro ge hge
      rw [search_after_combined hcomb, step1, step2, step3]
      simp only [tryIndividual]
      rw [hge]
    · intro es hes
      rw [search_after_combined hcomb, step1, step2, step3]
      simp only [tryIndividual]
      rw [hes]

/-- C7 witness: with only a subject term and the unread filter, a combined
tier that returns empty falls through to the subject-only attempt, whose
non-empty result is returned under the subject label. -/
theorem search_fallback_tiers_witness :
    search_emails fetchW none (some "S") none none (some true) 10 =
      .ok ([7], "subject search") :=
  (search_fallback_tiers fetchW none (some "S") none none (some true) 10
    (by decide)).1 [7] (by decide) rfl (by decide)

/-- C10: both tools clamp the requested count into [1, 50] before issuing
any request: a count below 1 behaves as 1, above 50 as 50, in range is
kept; and neither tool returns more than 50 items. -/
theorem count_clamped (net : GraphRequest → HttpResponse α) (token : Option String)
    (ep : String) (c : Int) (fuel : Nat) :
    1 ≤ clampCount c ∧ clampCount c ≤ 50 ∧
    (c < 1 → clampCount c = 1) ∧
    (50 < c → clampCount c = 50) ∧
    (1 ≤ c → c ≤ 50 → clampCount c = c) ∧
    (∀ tr items, list_emails net token ep c fuel = some (tr, .ok items) →
      items.length ≤ 50) ∧
    (∀ (fetch : List (String × String) → Except GraphErr (List α))
        (q s f : Option String) (ha uo : Option Bool),
      (∀ p es, fetch p = .ok es → es.length ≤ (clampCount c).toNat) →
      ∀ items lbl, search_emails fetch q s f ha uo c = .ok (items, lbl) →
        items.length ≤ 50) := by
  have hlo : 1 ≤ clampCount c := le_min (by norm_num) (le_max_left 1 c)
  have hhi : clampCount c ≤ 50 := min_le_left _ _
  have htn : (clampCount c).toNat ≤ 50 := by omega
  refine ⟨hlo, hhi, ?_, ?_, ?_, ?_, ?_⟩
  · intro h
    unfold clampCount
    rw [max_eq_left h.le]
    exact min_eq_right (by norm_num)
  · intro h
    unfold clampCount
    rw [max_eq_right (by omega : (1 : Int) ≤ c)]
    exact min_eq_left h.le
  · intro h1 h2
    unfold clampCount
    rw [max_eq_right h1]
    exact min_eq_right h2
  · intro tr items h
    unfold list_emails at h
    have hb := graph_get_paginated_length_le h
    omega
  · intro fetch q s f ha uo hb items lbl h
    obtain ⟨p, hp⟩ := search_emails_ok_src h
    have := hb p items hp
    omega

/-- C10 witness: a count of 100 behaves as 50, a count of 0 behaves as 1,
a count of 10 is kept. -/
theorem count_clamped_witness :
    clampCount 100 = 50 ∧ clampCount 0 = 1 ∧ clampCount 10 = 10 :=
  ⟨(count_clamped pagesNet (some "t") "inbox" 100 1).2.2.2.1 (by norm_num),
   (count_clamped pagesNet (some "t") "inbox" 0 1).2.2.1 (by norm_num),
   (count_clamped pagesNet (some "t") "inbox" 10 1).2.2.2.2.1 (by norm_num)
     (by norm_num)⟩

end OutlookMCP
